import Mathlib

/-!
Shallow embedding of the two agent modules of the repository:
`tool_adk_agent/agent.py` (tools `get_current_time`, `get_ck_news`,
helper `strip_html_tags`, agent descriptor `root_agent`) and
`default_adk_agent/agent.py` (agent descriptor `root_agent`).

Strings are modelled as `List Char`.  The external world (the system
clock together with the `zoneinfo` database, and the RSS feed fetched by
`feedparser`) is passed to each tool as an explicit argument describing
the outcome of the external call, so that each tool body is the faithful
translation of the Python control flow that consumes that outcome.
-/

/-- The components of a Python `datetime` that `strftime` with format
string `"%Y-%m-%d %H:%M:%S %Z"` consumes, plus the zone abbreviation
produced by the `%Z` directive. -/
structure PyDateTime where
  year : Nat
  month : Nat
  day : Nat
  hour : Nat
  minute : Nat
  second : Nat
  tzAbbrev : List Char
deriving DecidableEq

/-- Outcome of `ZoneInfo(timezone_str)` together with
`datetime.datetime.now(tz)`: either the current wall-clock datetime in the
requested zone, or `ZoneInfoNotFoundError` (unknown or malformed IANA
name), or any other exception carrying a message. -/
inductive ZoneOutcome where
  | found (now : PyDateTime)
  | notFound
  | otherFailure (msg : List Char)
deriving DecidableEq

/-- The record returned by `get_current_time`: every branch of the source
returns a dict with exactly the keys `status` and `report`. -/
structure TimeResult where
  status : List Char
  report : List Char
deriving DecidableEq

/-- The decimal digits of `n`, most significant first, as characters. -/
def natDigits (n : Nat) : List Char :=
  if h : n < 10 then [Char.ofNat (48 + n)]
  else natDigits (n / 10) ++ [Char.ofNat (48 + n % 10)]
decreasing_by
  exact Nat.div_lt_self (by omega) (by omega)

/-- Left-pad a character list with `\x30` (the digit zero) to width `w`,
as the zero-padding numeric directives of `strftime` do. -/
def padZero (w : Nat) (s : List Char) : List Char :=
  List.replicate (w - s.length) '0' ++ s

/-- A numeric `strftime` directive: `n` rendered in decimal, zero-padded
to width `w`. -/
def fmtNat (w : Nat) (n : Nat) : List Char :=
  padZero w (natDigits n)

/-- `dt.strftime("%Y-%m-%d %H:%M:%S %Z")`: four-digit zero-padded year,
two-digit zero-padded month, day, hour, minute and second, with the
literal separators of the format string, ending in the zone
abbreviation. -/
def strftimeReport (dt : PyDateTime) : List Char :=
  fmtNat 4 dt.year ++ ['-'] ++ fmtNat 2 dt.month ++ ['-']
    ++ fmtNat 2 dt.day ++ [' '] ++ fmtNat 2 dt.hour ++ [':']
    ++ fmtNat 2 dt.minute ++ [':'] ++ fmtNat 2 dt.second
    ++ [' '] ++ dt.tzAbbrev

/-- `get_current_time` from `tool_adk_agent/agent.py`.  The `try` body
computes the formatted report sentence on the datetime obtained from the
zone lookup; the two `except` arms build the two error reports. -/
def get_current_time (timezone_str : List Char) (world : ZoneOutcome) : TimeResult :=
  match world with
  | ZoneOutcome.found now =>
      { status := "success".data
        report := "The current time in ".data ++ timezone_str ++ " is ".data
          ++ strftimeReport now ++ ".".data }
  | ZoneOutcome.notFound =>
      { status := "error".data
        report := "Error: Timezone '".data ++ timezone_str
          ++ "' not found. Please use a valid IANA timezone name.".data }
  | ZoneOutcome.otherFailure msg =>
      { status := "error".data
        report := "An unexpected error occurred: ".data ++ msg }

/-- Scan for the first closing greater-than sign: `some rest` with `rest`
the characters after it, or `none` when there is none.  This is the
search the regex `<[^>]*>` performs after an opening less-than sign. -/
def dropToGt : List Char → Option (List Char)
  | [] => none
  | c :: rest => if c = '>' then some rest else dropToGt rest

/-- The substitution pass of `re.sub(r'<[^>]*>', '', html)`: each maximal
segment from a less-than sign up to the next greater-than sign is
removed; a less-than sign with no later greater-than sign cannot match
the pattern and is kept. -/
def removeTags (l : List Char) : List Char :=
  match l with
  | [] => []
  | c :: rest =>
      if c = '<' then
        match h : dropToGt rest with
        | some rest2 => removeTags rest2
        | none => c :: removeTags rest
      else c :: removeTags rest
termination_by l.length
decreasing_by
  · have key : ∀ (a b : List Char), dropToGt a = some b → b.length < a.length := by
      intro a
      induction a with
      | nil => intro b hb; simp [dropToGt] at hb
      | cons x xs ih =>
          intro b hb
          by_cases hx : x = '>'
          · simp only [dropToGt, hx, if_pos] at hb
            cases hb
            exact Nat.lt_succ_self _
          · simp only [dropToGt, hx, if_neg, if_false] at hb
            exact Nat.lt_succ_of_lt (ih b hb)
    exact Nat.lt_succ_of_lt (key rest rest2 h)
  · exact Nat.lt_succ_self _
  · exact Nat.lt_succ_self _

/-- The whitespace characters removed by Python `str.strip()` (the ASCII
ones: space, tab, newline, carriage return, vertical tab, form feed). -/
def isPySpace (c : Char) : Bool :=
  c = ' ' || c = '\t' || c = '\n' || c = '\r' || c = '\x0b' || c = '\x0c'

/-- Python `str.strip()`: drop whitespace from both ends. -/
def stripEnds (l : List Char) : List Char :=
  ((l.dropWhile isPySpace).reverse.dropWhile isPySpace).reverse

/-- `strip_html_tags` from `tool_adk_agent/agent.py`:
`re.sub(r'<[^>]*>', '', html).strip()`. -/
def strip_html_tags (html : List Char) : List Char :=
  stripEnds (removeTags html)

/-- One RSS feed entry as `feedparser` presents it: the fields read by
`get_ck_news` via `entry.get(..., '')` (a missing field is the empty
string). -/
structure Entry where
  title : List Char
  summary : List Char
  link : List Char
  published : List Char
deriving DecidableEq

/-- One element of the `results` list of `get_ck_news`: the dict with
keys `title`, `link`, `summary` (HTML-stripped) and `pubDate`. -/
structure Report where
  title : List Char
  link : List Char
  summary : List Char
  pubDate : List Char
deriving DecidableEq

/-- Outcome of `feedparser.parse(feed_url)` as `get_ck_news` consumes it:
either the entry list, or a failure (the feed's `bozo` flag set, whose
`bozo_exception` is re-raised, or any exception from the fetch itself),
carrying the exception's message. -/
inductive FeedOutcome where
  | failure (msg : List Char)
  | ok (entries : List Entry)
deriving DecidableEq

/-- The record returned by `get_ck_news`: a dict with key `status` and
either `reports` (on success) or `error_message` (on error). -/
inductive NewsResult where
  | success (reports : List Report)
  | error (error_message : List Char)
deriving DecidableEq

/-- The `status` value of a `get_ck_news` result dict. -/
def NewsResult.status : NewsResult → List Char
  | NewsResult.success _ => "success".data
  | NewsResult.error _ => "error".data

/-- The `reports` list of a `get_ck_news` result dict; an error dict
carries no `reports` key, read as the empty list. -/
def NewsResult.reports : NewsResult → List Report
  | NewsResult.success rs => rs
  | NewsResult.error _ => []

/-- Case folding for the `re.IGNORECASE` match: both the pattern and the
text are lowered character by character. -/
def lowerStr (l : List Char) : List Char :=
  l.map Char.toLower

/-- Whether `pat` is an initial segment of `s`. -/
def startsWith : List Char → List Char → Bool
  | [], _ => true
  | _ :: _, [] => false
  | a :: as, b :: bs => a = b && startsWith as bs

/-- Whether `pat` occurs as a contiguous substring of `s`: the search
performed by `pattern.search` for the literal (escaped) pattern.  The
empty pattern matches everywhere, as in Python. -/
def occursIn (pat : List Char) : List Char → Bool
  | [] => pat.isEmpty
  | c :: rest => startsWith pat (c :: rest) || occursIn pat rest

/-- `combined_text = f"{title} {summary_html}"`: the title, one space,
and the raw HTML summary. -/
def combinedText (e : Entry) : List Char :=
  e.title ++ ' ' :: e.summary

/-- The match test of the loop body: `pattern.search(combined_text)`
where `pattern = re.compile(re.escape(keyword), re.IGNORECASE)`, i.e. a
case-insensitive literal-substring search. -/
def matchesKeyword (keyword : List Char) (e : Entry) : Bool :=
  occursIn (lowerStr keyword) (lowerStr (combinedText e))

/-- The dict appended to `results` for a matching entry. -/
def mkReport (e : Entry) : Report :=
  { title := e.title
    link := e.link
    summary := strip_html_tags e.summary
    pubDate := e.published }

/-- The `for entry in feed.entries` loop of `get_ck_news`: `count` is the
number of reports accumulated so far (`len(results)` before this entry);
after appending a match the loop breaks when `len(results) >=
max_results`. -/
def scanNews (keyword : List Char) (max_results : Int) : Nat → List Entry → List Report
  | _, [] => []
  | count, e :: rest =>
      if matchesKeyword keyword e then
        if ((count : Int) + 1) ≥ max_results then [mkReport e]
        else mkReport e :: scanNews keyword max_results (count + 1) rest
      else scanNews keyword max_results count rest

/-- `get_ck_news` from `tool_adk_agent/agent.py`, over the outcome of the
feed fetch.  A feed failure is caught by the `except` arm; otherwise the
loop collects matching entries, and an empty `results` list yields the
not-found error. -/
def get_ck_news (keyword : List Char) (max_results : Int) (feed : FeedOutcome) : NewsResult :=
  match feed with
  | FeedOutcome.failure msg =>
      NewsResult.error ("處理 RSS Feed 時發生錯誤: ".data ++ msg)
  | FeedOutcome.ok entries =>
      let results := scanNews keyword max_results 0 entries
      if results.isEmpty then
        NewsResult.error ("未找到關鍵字「".data ++ keyword ++ "」的相關新聞。".data)
      else NewsResult.success results

/-- Whether `l` still contains `<...>` markup, i.e. a less-than sign
followed (not necessarily adjacently) by a greater-than sign — exactly
when the regex `<[^>]*>` has a match in `l`. -/
def hasTag : List Char → Bool
  | [] => false
  | c :: rest => (c = '<' && (dropToGt rest).isSome) || hasTag rest

/-- The two tools registered on the tool agent, in declaration order. -/
inductive ToolRef where
  | get_current_time
  | get_ck_news
deriving DecidableEq

/-- An agent descriptor: the `Agent(...)` keyword arguments used by this
repository.  `tools` defaults to the empty list when not passed. -/
structure AgentConfig where
  name : List Char
  model : List Char
  description : List Char
  instruction : List Char
  tools : List ToolRef
deriving DecidableEq

/-- `root_agent` of `tool_adk_agent/agent.py`.  The description and
instruction are each written in the source as adjacent Python string
literals, which concatenate without separator. -/
def tool_root_agent : AgentConfig :=
  { name := "time_agent".data
    model := "gemini-2.0-flash".data
    description := ("Agent to answer questions about the time in a city.".data
      ++ "Agent to answer news in CK High School with a list".data)
    instruction := ("You are a helpful agent who can answer user questions about the time in a city. ".data
      ++ "You will be given a timezone string to find the current time.".data
      ++ "You will be given news in CK High School.".data)
    tools := [ToolRef.get_current_time, ToolRef.get_ck_news] }

/-- `root_agent` of `default_adk_agent/agent.py`; no `tools` argument is
passed, so the tool list is empty. -/
def default_root_agent : AgentConfig :=
  { name := "root_agent".data
    model := "gemini-2.0-flash-exp".data
    description := "A helpful assistant for user questions.".data
    instruction := "Answer user questions to the best of your knowledge".data
    tools := [] }

/-- Spec-side matching predicate used only to check claim C3 against the
code: the keyword occurs, case-insensitively, as a literal substring of
the concatenation of the entry's title and its raw HTML-laden summary,
with no separator between the two (the spec's literal words). -/
def specMatchPlainConcat (keyword : List Char) (e : Entry) : Prop :=
  ∃ a b, lowerStr (e.title ++ e.summary) = a ++ lowerStr keyword ++ b

/-! ## Helper lemmas -/

theorem startsWith_iff {p s : List Char} : startsWith p s = true ↔ ∃ t, s = p ++ t := by
  induction p generalizing s with
  | nil => simp [startsWith]
  | cons a as ih =>
      cases s with
      | nil => simp [startsWith]
      | cons b bs =>
          simp only [startsWith, Bool.and_eq_true, decide_eq_true_eq, ih]
          constructor
          · rintro ⟨hab, t, ht⟩
            exact ⟨t, by simp [hab, ht]⟩
          · rintro ⟨t, ht⟩
            rw [List.cons_append] at ht
            cases ht
            exact ⟨rfl, t, rfl⟩

theorem occursIn_iff {p s : List Char} : occursIn p s = true ↔ ∃ a b, s = a ++ p ++ b := by
  induction s with
  | nil =>
      cases p <;> simp [occursIn, List.isEmpty]
  | cons c rest ih =>
      simp only [occursIn, Bool.or_eq_true, startsWith_iff, ih]
      constructor
      · rintro (⟨t, ht⟩ | ⟨a, b, hab⟩)
        · exact ⟨[], t, by simp [ht]⟩
        · exact ⟨c :: a, b, by simp [hab]⟩
      · rintro ⟨a, b, hab⟩
        cases a with
        | nil =>
            exact Or.inl ⟨b, by simpa using hab⟩
        | cons x xs =>
            rw [List.cons_append, List.cons_append] at hab
            cases hab
            exact Or.inr ⟨xs, b, rfl⟩

theorem dropToGt_isSome_iff {l : List Char} : (dropToGt l).isSome = true ↔ '>' ∈ l := by
  induction l with
  | nil => simp [dropToGt]
  | cons c rest ih =>
      by_cases hc : c = '>'
      · simp [dropToGt, hc]
      · simp [dropToGt, hc, ih, Ne.symm hc]

theorem dropToGt_eq_none_iff {l : List Char} : dropToGt l = none ↔ '>' ∉ l := by
  rw [← dropToGt_isSome_iff]
  cases dropToGt l <;> simp

theorem dropToGt_sublist {l l2 : List Char} (h : dropToGt l = some l2) : l2.Sublist l := by
  induction l generalizing l2 with
  | nil => simp [dropToGt] at h
  | cons c rest ih =>
      by_cases hc : c = '>'
      · simp only [dropToGt, hc, if_pos] at h
        cases h
        exact (List.sublist_cons_self _ _)
      · simp only [dropToGt, hc, if_neg, if_false] at h
        exact (ih h).trans (List.sublist_cons_self _ _)

theorem removeTags_cons_lt_some {rest rest2 : List Char} (h : dropToGt rest = some rest2) :
    removeTags ('<' :: rest) = removeTags rest2 := by
  simp only [removeTags]
  split
  · split
    · next r2 heq =>
        rw [h] at heq
        cases heq
        rfl
    · next heq =>
        rw [h] at heq
        cases heq
  · next heq => exact absurd trivial heq

theorem removeTags_cons_lt_none {rest : List Char} (h : dropToGt rest = none) :
    removeTags ('<' :: rest) = '<' :: removeTags rest := by
  simp only [removeTags]
  split
  · split
    · next r2 heq =>
        rw [h] at heq
        cases heq
    · next heq => rfl
  · next heq => exact absurd trivial heq

theorem removeTags_cons_ne {c : Char} {rest : List Char} (hc : ¬c = '<') :
    removeTags (c :: rest) = c :: removeTags rest := by
  rw [removeTags, if_neg hc]

theorem removeTags_sublist (l : List Char) : (removeTags l).Sublist l := by
  induction l using removeTags.induct with
  | case1 => simp [removeTags]
  | case2 rest rest2 h ih =>
      rw [removeTags_cons_lt_some h]
      exact (ih.trans (dropToGt_sublist h)).trans (List.sublist_cons_self _ _)
  | case3 rest h ih =>
      rw [removeTags_cons_lt_none h]
      exact ih.cons₂ _
  | case4 c rest hc ih =>
      rw [removeTags_cons_ne hc]
      exact ih.cons₂ _

theorem hasTag_iff {l : List Char} : hasTag l = true ↔ ([ '<', '>'].Sublist l) := by
  induction l with
  | nil => simp [hasTag]
  | cons c rest ih =>
      simp only [hasTag, Bool.or_eq_true, Bool.and_eq_true, decide_eq_true_eq,
        dropToGt_isSome_iff, ih]
      constructor
      · rintro (⟨hc, hmem⟩ | hsub)
        · rw [hc]
          exact (List.singleton_sublist.mpr hmem).cons₂ _
        · exact hsub.cons _
      · intro hsub
        cases hsub with
        | cons _ hsub2 => exact Or.inr hsub2
        | cons₂ _ hsub2 => exact Or.inl ⟨rfl, List.singleton_sublist.mp hsub2⟩

theorem hasTag_false_of_sublist {l1 l2 : List Char} (hs : l1.Sublist l2)
    (h : hasTag l2 = false) : hasTag l1 = false := by
  by_contra hne
  have h1 : hasTag l1 = true := by
    cases htag : hasTag l1
    · exact absurd htag hne
    · rfl
  have h2 := hasTag_iff.mpr ((hasTag_iff.mp h1).trans hs)
  rw [h] at h2
  simp at h2

theorem hasTag_removeTags (l : List Char) : hasTag (removeTags l) = false := by
  induction l using removeTags.induct with
  | case1 => simp [removeTags, hasTag]
  | case2 rest rest2 h ih =>
      rw [removeTags_cons_lt_some h]
      exact ih
  | case3 rest h ih =>
      rw [removeTags_cons_lt_none h]
      have hnot : '>' ∉ removeTags rest := fun hmem =>
        (dropToGt_eq_none_iff.mp h) ((removeTags_sublist rest).subset hmem)
      simp [hasTag, ih, dropToGt_eq_none_iff.mpr hnot]
  | case4 c rest hc ih =>
      rw [removeTags_cons_ne hc]
      simp [hasTag, ih, hc]

theorem stripEnds_sublist (l : List Char) : (stripEnds l).Sublist l := by
  unfold stripEnds
  have h2 : (((l.dropWhile isPySpace).reverse.dropWhile isPySpace).reverse).Sublist
      ((l.dropWhile isPySpace).reverse.reverse) :=
    List.reverse_sublist.mpr (List.dropWhile_sublist _)
  rw [List.reverse_reverse] at h2
  exact h2.trans (List.dropWhile_sublist _)

theorem hasTag_strip_html_tags (l : List Char) : hasTag (strip_html_tags l) = false :=
  hasTag_false_of_sublist (stripEnds_sublist _) (hasTag_removeTags l)

theorem scanNews_eq_nil_iff {kw : List Char} {k : Int} {c : Nat} {es : List Entry} :
    scanNews kw k c es = [] ↔ es.filter (matchesKeyword kw) = [] := by
  induction es generalizing c with
  | nil => simp [scanNews]
  | cons e rest ih =>
      by_cases hm : matchesKeyword kw e
      · simp only [scanNews, hm, if_pos, List.filter_cons_of_pos hm]
        constructor
        · intro h
          split at h <;> simp at h
        · intro h
          simp at h
      · simp only [scanNews, hm, Bool.false_eq_true, if_false]
        rw [List.filter_cons, if_neg hm]
        exact ih

theorem scanNews_eq_take_pos {kw : List Char} {k : Int} (hk : 1 ≤ k) :
    ∀ (es : List Entry) (c : Nat), (c : Int) < k →
      scanNews kw k c es =
        ((es.filter (matchesKeyword kw)).map mkReport).take (k.toNat - c) := by
  intro es
  induction es with
  | nil => intro c hc; simp [scanNews]
  | cons e rest ih =>
      intro c hc
      by_cases hm : matchesKeyword kw e
      · rw [List.filter_cons_of_pos hm, List.map_cons]
        have hsub : k.toNat - c = (k.toNat - c - 1) + 1 := by omega
        rw [hsub, List.take_succ_cons]
        simp only [scanNews, hm, if_pos]
        by_cases hstop : ((c : Int) + 1) ≥ k
        · have hk1 : k.toNat - c - 1 = 0 := by omega
          rw [if_pos hstop, hk1, List.take_zero]
        · have hc2 : ((c + 1 : Nat) : Int) < k := by push_cast; omega
          rw [if_neg hstop, ih (c + 1) hc2]
          have : k.toNat - (c + 1) = k.toNat - c - 1 := by omega
          rw [this]
      · rw [List.filter_cons, if_neg hm]
        simp only [scanNews, hm, Bool.false_eq_true, if_false]
        exact ih c hc

theorem scanNews_eq_take_nonpos {kw : List Char} {k : Int} (hk : k ≤ 0) :
    ∀ (es : List Entry) (c : Nat),
      scanNews kw k c es = ((es.filter (matchesKeyword kw)).map mkReport).take 1 := by
  intro es
  induction es with
  | nil => intro c; simp [scanNews]
  | cons e rest ih =>
      intro c
      by_cases hm : matchesKeyword kw e
      · rw [List.filter_cons_of_pos hm, List.map_cons]
        have hstop : ((c : Int) + 1) ≥ k := by omega
        simp only [scanNews, hm, if_pos, if_pos hstop]
        simp
      · rw [List.filter_cons, if_neg hm]
        simp only [scanNews, hm, Bool.false_eq_true, if_false]
        exact ih c

theorem get_ck_news_ok_reports {kw : List Char} {k : Int} {es : List Entry} :
    (get_ck_news kw k (FeedOutcome.ok es)).reports = scanNews kw k 0 es := by
  simp only [get_ck_news]
  split
  · next hempty =>
      rw [NewsResult.reports, List.isEmpty_iff.mp hempty]
  · next => rfl

theorem natDigits_lt {n : Nat} (h : n < 10) : natDigits n = [Char.ofNat (48 + n)] := by
  unfold natDigits
  rw [dif_pos h]

theorem natDigits_ge {n : Nat} (h : ¬n < 10) :
    natDigits n = natDigits (n / 10) ++ [Char.ofNat (48 + n % 10)] := by
  conv_lhs => unfold natDigits
  rw [dif_neg h]

theorem isDigit_ofNat_add {d : Nat} (h : d < 10) : (Char.ofNat (48 + d)).isDigit = true := by
  interval_cases d <;> decide

theorem natDigits_all_digit (n : Nat) : ∀ c ∈ natDigits n, c.isDigit = true := by
  induction n using Nat.strong_induction_on with
  | _ n ih =>
      by_cases h : n < 10
      · rw [natDigits_lt h]
        intro c hc
        simp only [List.mem_singleton] at hc
        rw [hc]
        exact isDigit_ofNat_add h
      · rw [natDigits_ge h]
        intro c hc
        rcases List.mem_append.mp hc with h1 | h2
        · exact ih (n / 10) (Nat.div_lt_self (by omega) (by omega)) c h1
        · simp only [List.mem_singleton] at h2
          rw [h2]
          exact isDigit_ofNat_add (Nat.mod_lt _ (by omega))

theorem natDigits_length_le : ∀ {w n : Nat}, 1 ≤ w → n < 10 ^ w → (natDigits n).length ≤ w := by
  intro w
  induction w with
  | zero => intro n hw _; omega
  | succ w ih =>
      intro n _ hn
      by_cases h : n < 10
      · rw [natDigits_lt h]
        simp
      · rw [natDigits_ge h, List.length_append, List.length_singleton]
        have hw1 : 1 ≤ w := by
          by_contra hw0
          have hw2 : w = 0 := by omega
          rw [hw2, pow_one] at hn
          omega
        have hdiv : n / 10 < 10 ^ w := by
          rw [Nat.div_lt_iff_lt_mul (by omega : 0 < 10)]
          rw [pow_succ] at hn
          exact hn
        have := ih hw1 hdiv
        omega

theorem padZero_length {w : Nat} {s : List Char} (h : s.length ≤ w) :
    (padZero w s).length = w := by
  simp [padZero]
  omega

theorem padZero_digit {w : Nat} {s : List Char} (h : ∀ c ∈ s, c.isDigit = true) :
    ∀ c ∈ padZero w s, c.isDigit = true := by
  intro c hc
  rcases List.mem_append.mp hc with h1 | h2
  · rw [List.eq_of_mem_replicate h1]
    decide
  · exact h c h2

theorem fmtNat_length {w n : Nat} (hw : 1 ≤ w) (hn : n < 10 ^ w) :
    (fmtNat w n).length = w :=
  padZero_length (natDigits_length_le hw hn)

theorem fmtNat_digit {w n : Nat} : ∀ c ∈ fmtNat w n, c.isDigit = true :=
  padZero_digit (natDigits_all_digit n)

/-! ## Claim theorems -/

/-- C1 counterexample: with `max_results = 0` and a feed whose first
entry matches the keyword, `get_ck_news` returns a successful result with
one report, so the returned list is longer than `max_results`.  The bound
is only checked after a matching entry has been appended. -/
theorem get_ck_news_max_results_zero_counterexample :
    get_ck_news "a".data 0 (FeedOutcome.ok [⟨"news a".data, "s".data, "l".data, "p".data⟩])
      = NewsResult.success [⟨"news a".data, "l".data, "s".data, "p".data⟩] ∧
    ¬((([(⟨"news a".data, "l".data, "s".data, "p".data⟩ : Report)]).length : Int) ≤ 0) := by
  constructor
  · simp +decide [get_ck_news, scanNews, matchesKeyword, mkReport, strip_html_tags, removeTags,
      dropToGt, stripEnds, isPySpace, occursIn, startsWith, lowerStr, combinedText]
  · decide

/-- C1 (amended): for every keyword and every `max_results ≥ 1`, a
successful `get_ck_news` call returns at most `max_results` reports.
(As stated, over every integer `max_results`, the claim fails for
`max_results ≤ 0`, where one report is returned.) -/
theorem get_ck_news_le_max_results (keyword : List Char) (max_results : Int)
    (hk : 1 ≤ max_results) (feed : FeedOutcome) (rs : List Report)
    (h : get_ck_news keyword max_results feed = NewsResult.success rs) :
    (rs.length : Int) ≤ max_results := by
  cases feed with
  | failure msg => exact absurd h (by simp [get_ck_news])
  | ok es =>
      simp only [get_ck_news] at h
      split at h
      · exact NewsResult.noConfusion h
      · injection h with h2
        rw [← h2, scanNews_eq_take_pos hk es 0 (by push_cast; omega), Nat.sub_zero,
          List.length_take]
        omega

/-- C1 witness: the amended bound at a concrete input. -/
theorem get_ck_news_le_max_results_witness :
    ((([⟨"apple".data, "l".data, "s".data, "p".data⟩] : List Report)).length : Int) ≤ 1 :=
  get_ck_news_le_max_results "a".data 1 (by decide)
    (FeedOutcome.ok [⟨"apple".data, "s".data, "l".data, "p".data⟩])
    [⟨"apple".data, "l".data, "s".data, "p".data⟩]
    (by simp +decide [get_ck_news, scanNews, matchesKeyword, mkReport, strip_html_tags,
      removeTags, dropToGt, stripEnds, isPySpace, occursIn, startsWith, lowerStr, combinedText])

/-- C2 counterexample: the keyword occurs (case-insensitively) in the
entry — inside an HTML attribute of its raw summary — and
`max_results = 1 ≤ N = 1`, and the call does return success with exactly
one report; but the returned report contains the keyword neither in its
title nor in its (HTML-stripped) summary, because the match was made
against the raw summary before tags were removed. -/
theorem get_ck_news_keyword_in_tag_counterexample :
    get_ck_news "href".data 1
        (FeedOutcome.ok [⟨"News".data, "<a href=u>hello</a>".data, "l7".data, "p7".data⟩])
      = NewsResult.success [⟨"News".data, "l7".data, "hello".data, "p7".data⟩] ∧
    occursIn (lowerStr "href".data) (lowerStr "News".data) = false ∧
    occursIn (lowerStr "href".data) (lowerStr "hello".data) = false := by
  refine ⟨?_, by decide, by decide⟩
  simp +decide [get_ck_news, scanNews, matchesKeyword, mkReport, strip_html_tags, removeTags,
    dropToGt, stripEnds, isPySpace, occursIn, startsWith, lowerStr, combinedText]

/-- C2 (amended): for every feed in which at least `N` entries match the
keyword (case-insensitively, against the title-space-raw-summary text the
code scans) and every `k` with `1 ≤ k ≤ N`, `get_ck_news` with
`max_results = k` returns status success with exactly `k` reports, each
produced from a matching entry of the feed, and each with a summary free
of `<...>` markup.  (As stated the claim fails: for `k = 0` one report is
returned rather than zero, and a report need not contain the keyword in
its title or stripped summary when the keyword occurred only inside HTML
markup of the raw summary.) -/
theorem get_ck_news_exact_count (keyword : List Char) (max_results : Int) (es : List Entry)
    (hk : 1 ≤ max_results)
    (hN : max_results.toNat ≤ (es.filter (matchesKeyword keyword)).length) :
    ∃ rs, get_ck_news keyword max_results (FeedOutcome.ok es) = NewsResult.success rs ∧
      rs.length = max_results.toNat ∧
      ∀ r ∈ rs, (∃ e ∈ es, matchesKeyword keyword e = true ∧ r = mkReport e) ∧
        hasTag r.summary = false := by
  have hscan : scanNews keyword max_results 0 es
      = ((es.filter (matchesKeyword keyword)).map mkReport).take max_results.toNat := by
    rw [scanNews_eq_take_pos hk es 0 (by push_cast; omega), Nat.sub_zero]
  have hlen : (scanNews keyword max_results 0 es).length = max_results.toNat := by
    rw [hscan, List.length_take, List.length_map]
    omega
  have hne : ¬(scanNews keyword max_results 0 es).isEmpty = true := by
    intro hemp
    rw [List.isEmpty_iff.mp hemp] at hlen
    simp at hlen
    omega
  refine ⟨scanNews keyword max_results 0 es, ?_, hlen, ?_⟩
  · simp only [get_ck_news]
    rw [if_neg hne]
  · intro r hr
    rw [hscan] at hr
    have hr2 : r ∈ (es.filter (matchesKeyword keyword)).map mkReport :=
      (List.take_sublist _ _).subset hr
    obtain ⟨e, he, hre⟩ := List.mem_map.mp hr2
    obtain ⟨hees, hem⟩ := List.mem_filter.mp he
    refine ⟨⟨e, hees, hem, hre.symm⟩, ?_⟩
    rw [← hre]
    exact hasTag_strip_html_tags e.summary

/-- C2 witness: the amended statement at a concrete input. -/
theorem get_ck_news_exact_count_witness :
    (1 : Int) ≤ 1 ∧
    ∃ rs, get_ck_news "e".data 1
        (FeedOutcome.ok [⟨"eel".data, "s6".data, "l6".data, "p6".data⟩])
      = NewsResult.success rs ∧ rs.length = (1 : Int).toNat ∧
      ∀ r ∈ rs, (∃ e ∈ [(⟨"eel".data, "s6".data, "l6".data, "p6".data⟩ : Entry)],
        matchesKeyword "e".data e = true ∧ r = mkReport e) ∧ hasTag r.summary = false :=
  ⟨by decide, get_ck_news_exact_count "e".data 1
    [⟨"eel".data, "s6".data, "l6".data, "p6".data⟩] (by decide) (by decide)⟩

/-- C3 counterexample: for keyword "bc", title "ab" and summary "cd", the
keyword is a literal substring of the plain concatenation "abcd" of title
and raw summary (witnessed below), yet the loop's match test rejects the
entry: the code matches against `f"{title} {summary_html}"`, which places
a space between the two fields. -/
theorem matchesKeyword_plain_concat_counterexample :
    specMatchPlainConcat "bc".data ⟨"ab".data, "cd".data, [], []⟩ ∧
    matchesKeyword "bc".data ⟨"ab".data, "cd".data, [], []⟩ = false :=
  ⟨⟨"a".data, "d".data, by decide⟩, by decide⟩

/-- C3 (amended): for every keyword and entry, the loop accepts the entry
exactly when the keyword occurs, case-insensitively and as a literal
substring (not a pattern), in the concatenation of the entry's title, a
single space, and its raw HTML-laden summary.  (As stated the claim
fails only in that the two fields are joined by a space, not plainly
concatenated.) -/
theorem matchesKeyword_iff_substring (keyword : List Char) (e : Entry) :
    matchesKeyword keyword e = true ↔
      ∃ a b, lowerStr (e.title ++ ' ' :: e.summary) = a ++ lowerStr keyword ++ b := by
  unfold matchesKeyword combinedText
  exact occursIn_iff

/-- C4 counterexample: the claim quantifies over every `max_results`, but
for `max_results = 0` the returned reports are not the first
`max_results = 0` matching entries: the scan still appends the first
match before checking the bound, so one report comes back. -/
theorem get_ck_news_take_counterexample :
    (get_ck_news "d".data 0
        (FeedOutcome.ok [⟨"dog".data, "s5".data, "l5".data, "p5".data⟩])).reports
      = [⟨"dog".data, "l5".data, "s5".data, "p5".data⟩] ∧
    ((([⟨"dog".data, "s5".data, "l5".data, "p5".data⟩] : List Entry).filter
        (matchesKeyword "d".data)).map mkReport).take ((0 : Int).toNat) = [] ∧
    (get_ck_news "d".data 0
        (FeedOutcome.ok [⟨"dog".data, "s5".data, "l5".data, "p5".data⟩])).reports
      ≠ ((([⟨"dog".data, "s5".data, "l5".data, "p5".data⟩] : List Entry).filter
        (matchesKeyword "d".data)).map mkReport).take ((0 : Int).toNat) := by
  have h1 : (get_ck_news "d".data 0
      (FeedOutcome.ok [⟨"dog".data, "s5".data, "l5".data, "p5".data⟩])).reports
      = [⟨"dog".data, "l5".data, "s5".data, "p5".data⟩] := by
    simp +decide [get_ck_news, scanNews, matchesKeyword, mkReport, strip_html_tags, removeTags,
      dropToGt, stripEnds, isPySpace, occursIn, startsWith, lowerStr, combinedText,
      NewsResult.reports]
  refine ⟨h1, rfl, ?_⟩
  rw [h1]
  decide

/-- C4 (amended): for every keyword and every `max_results ≥ 1`, the
reports returned are exactly the first `max_results` matching entries in
feed order (first-match-first-included, fewer when the feed has fewer
matches), and once the feed already holds `max_results` matches the
result does not depend on any later entries — appending further entries
to the feed leaves the result unchanged (the loop breaks instead of
examining them).  (As stated, over every `max_results`, the claim fails
for `max_results ≤ 0`, where one report is returned.) -/
theorem get_ck_news_first_matches (keyword : List Char) (max_results : Int)
    (hk : 1 ≤ max_results) (es tail : List Entry) :
    (get_ck_news keyword max_results (FeedOutcome.ok es)).reports
        = ((es.filter (matchesKeyword keyword)).map mkReport).take max_results.toNat ∧
    (max_results.toNat ≤ (es.filter (matchesKeyword keyword)).length →
      get_ck_news keyword max_results (FeedOutcome.ok (es ++ tail))
        = get_ck_news keyword max_results (FeedOutcome.ok es)) := by
  have hmain : ∀ l : List Entry, scanNews keyword max_results 0 l
      = ((l.filter (matchesKeyword keyword)).map mkReport).take max_results.toNat := by
    intro l
    rw [scanNews_eq_take_pos hk l 0 (by push_cast; omega), Nat.sub_zero]
  constructor
  · rw [get_ck_news_ok_reports, hmain es]
  · intro hlen
    simp only [get_ck_news]
    rw [hmain (es ++ tail), hmain es, List.filter_append, List.map_append,
      List.take_append_of_le_length (by rw [List.length_map]; exact hlen)]

/-- C4 witness: with one matching entry and `max_results = 1`, appending
a further matching entry does not change the result. -/
theorem get_ck_news_first_matches_witness :
    get_ck_news "c".data 1
        (FeedOutcome.ok ([⟨"cat".data, "s3".data, "l3".data, "p3".data⟩]
          ++ [⟨"cow".data, "s4".data, "l4".data, "p4".data⟩]))
      = get_ck_news "c".data 1
        (FeedOutcome.ok [⟨"cat".data, "s3".data, "l3".data, "p3".data⟩]) :=
  (get_ck_news_first_matches "c".data 1 (by decide)
    [⟨"cat".data, "s3".data, "l3".data, "p3".data⟩]
    [⟨"cow".data, "s4".data, "l4".data, "p4".data⟩]).2 (by decide)

/-- C5 (confirmed): `get_ck_news` returns an error record (never throws —
the embedding is a total function) in exactly two distinguishable cases:
a feed fetch/parse failure yields an error whose message carries the
underlying failure description, and a full scan with zero matches yields
a distinct not-found message naming the keyword; every other feed outcome
yields success, the two error messages can never coincide (they start
with different characters), and in the not-found case the result carries
no reports. -/
theorem get_ck_news_error_cases (keyword : List Char) (max_results : Int)
    (msg : List Char) (es : List Entry) :
    get_ck_news keyword max_results (FeedOutcome.failure msg)
        = NewsResult.error ("處理 RSS Feed 時發生錯誤: ".data ++ msg) ∧
    (es.filter (matchesKeyword keyword) = [] →
      get_ck_news keyword max_results (FeedOutcome.ok es)
        = NewsResult.error ("未找到關鍵字「".data ++ keyword ++ "」的相關新聞。".data)) ∧
    (es.filter (matchesKeyword keyword) ≠ [] →
      ∃ rs, rs ≠ [] ∧ get_ck_news keyword max_results (FeedOutcome.ok es)
        = NewsResult.success rs) ∧
    ("處理 RSS Feed 時發生錯誤: ".data ++ msg
      ≠ "未找到關鍵字「".data ++ keyword ++ "」的相關新聞。".data) ∧
    (es.filter (matchesKeyword keyword) = [] →
      (get_ck_news keyword max_results (FeedOutcome.ok es)).reports = []) := by
  have hnil : es.filter (matchesKeyword keyword) = [] →
      get_ck_news keyword max_results (FeedOutcome.ok es)
        = NewsResult.error ("未找到關鍵字「".data ++ keyword ++ "」的相關新聞。".data) := by
    intro hf
    have h0 : scanNews keyword max_results 0 es = [] := scanNews_eq_nil_iff.mpr hf
    simp only [get_ck_news]
    rw [h0]
    rfl
  refine ⟨rfl, hnil, ?_, ?_, fun hf => by rw [hnil hf]; rfl⟩
  · intro hne
    have h0 : scanNews keyword max_results 0 es ≠ [] := fun hc =>
      hne (scanNews_eq_nil_iff.mp hc)
    refine ⟨scanNews keyword max_results 0 es, h0, ?_⟩
    simp only [get_ck_news]
    rw [if_neg (fun hemp => h0 (List.isEmpty_iff.mp hemp))]
  · intro heq
    have h1 : ("處理 RSS Feed 時發生錯誤: ".data ++ msg).head? = some '處' := rfl
    rw [heq] at h1
    have h2 : ("未找到關鍵字「".data ++ keyword ++ "」的相關新聞。".data).head?
        = some '未' := rfl
    rw [h1] at h2
    simp at h2

/-- C5 witness: the not-found case at a concrete input with no matching
entry. -/
theorem get_ck_news_error_cases_witness :
    get_ck_news "zz".data 3 (FeedOutcome.ok [⟨"t8".data, "s8".data, "l8".data, "p8".data⟩])
      = NewsResult.error ("未找到關鍵字「".data ++ "zz".data ++ "」的相關新聞。".data) :=
  (get_ck_news_error_cases "zz".data 3 "m".data
    [⟨"t8".data, "s8".data, "l8".data, "p8".data⟩]).2.1 (by decide)

/-- C6 (confirmed): for a timezone lookup that raises
`ZoneInfoNotFoundError` (an unknown or malformed IANA name),
`get_current_time` returns — rather than throws — a record with status
"error" whose report message names the invalid input string. -/
theorem get_current_time_unknown_zone (timezone_str : List Char) :
    (get_current_time timezone_str ZoneOutcome.notFound).status = "error".data ∧
    ∃ a b, (get_current_time timezone_str ZoneOutcome.notFound).report
      = a ++ timezone_str ++ b :=
  ⟨rfl, "Error: Timezone '".data,
    "' not found. Please use a valid IANA timezone name.".data, rfl⟩

/-- C7 (confirmed): for a valid IANA timezone — a lookup that yields the
current wall-clock datetime in that zone — `get_current_time` returns
status "success" and a success sentence naming the timezone that wraps
the time formatted as `YYYY-MM-DD HH:MM:SS <zone-abbrev>`: four digit
characters for the year and two for each other field, with the
separators of the format string, ending in the zone abbreviation. -/
theorem get_current_time_success_format (timezone_str : List Char) (dt : PyDateTime)
    (hy : dt.year < 10000) (hmo : dt.month < 100) (hd : dt.day < 100)
    (hh : dt.hour < 100) (hmi : dt.minute < 100) (hs : dt.second < 100) :
    (get_current_time timezone_str (ZoneOutcome.found dt)).status = "success".data ∧
    (get_current_time timezone_str (ZoneOutcome.found dt)).report
      = "The current time in ".data ++ timezone_str ++ " is ".data
        ++ strftimeReport dt ++ ".".data ∧
    ∃ ys ms ds hsl msl ssl : List Char,
      strftimeReport dt = ys ++ '-' :: ms ++ '-' :: ds ++ ' ' :: hsl ++ ':' :: msl
        ++ ':' :: ssl ++ ' ' :: dt.tzAbbrev ∧
      ys.length = 4 ∧ ms.length = 2 ∧ ds.length = 2 ∧ hsl.length = 2 ∧
      msl.length = 2 ∧ ssl.length = 2 ∧
      ∀ c ∈ ys ++ ms ++ ds ++ hsl ++ msl ++ ssl, c.isDigit = true := by
  have h4 : (10 : Nat) ^ 4 = 10000 := by norm_num
  have h2 : (10 : Nat) ^ 2 = 100 := by norm_num
  refine ⟨rfl, rfl, fmtNat 4 dt.year, fmtNat 2 dt.month, fmtNat 2 dt.day,
    fmtNat 2 dt.hour, fmtNat 2 dt.minute, fmtNat 2 dt.second,
    by simp [strftimeReport, List.append_assoc],
    fmtNat_length (by omega) (by rw [h4]; exact hy),
    fmtNat_length (by omega) (by rw [h2]; exact hmo),
    fmtNat_length (by omega) (by rw [h2]; exact hd),
    fmtNat_length (by omega) (by rw [h2]; exact hh),
    fmtNat_length (by omega) (by rw [h2]; exact hmi),
    fmtNat_length (by omega) (by rw [h2]; exact hs), ?_⟩
  intro c hc
  simp only [List.mem_append] at hc
  rcases hc with ((((hc | hc) | hc) | hc) | hc) | hc <;> exact fmtNat_digit c hc

/-- C7 witness: the success format at a concrete datetime and zone. -/
theorem get_current_time_success_format_witness :
    (2024 : Nat) < 10000 ∧
    (get_current_time "Asia/Taipei".data
        (ZoneOutcome.found ⟨2024, 5, 17, 3, 4, 5, "CST".data⟩)).status
      = "success".data :=
  ⟨by decide, (get_current_time_success_format "Asia/Taipei".data
      ⟨2024, 5, 17, 3, 4, 5, "CST".data⟩ (by decide) (by decide) (by decide)
      (by decide) (by decide) (by decide)).1⟩

/-- C8 (confirmed): both tools are total functions of their input and the
outcome of the external call — every failure mode of the external world
(`ZoneOutcome`, `FeedOutcome`) is consumed by a branch that builds a
value — and every execution path yields a record whose status is
"success" or "error"; no input makes either function throw. -/
theorem tool_results_status_tagged (timezone_str : List Char) (world : ZoneOutcome)
    (keyword : List Char) (max_results : Int) (feed : FeedOutcome) :
    ((get_current_time timezone_str world).status = "success".data ∨
      (get_current_time timezone_str world).status = "error".data) ∧
    ((get_ck_news keyword max_results feed).status = "success".data ∨
      (get_ck_news keyword max_results feed).status = "error".data) := by
  constructor
  · cases world <;> simp [get_current_time]
  · cases feed with
    | failure msg => right; rfl
    | ok es =>
        simp only [get_ck_news]
        split
        · right; rfl
        · left; rfl

/-- C9 (confirmed): for every `max_results ≤ 0` and every feed with at
least one matching entry, `get_ck_news` returns status success with
exactly one report: the bound `len(results) >= max_results` is only
checked after the first matching entry has been appended, and then holds
at once. -/
theorem get_ck_news_nonpositive_max (keyword : List Char) (max_results : Int)
    (hk : max_results ≤ 0) (es : List Entry)
    (hm : es.filter (matchesKeyword keyword) ≠ []) :
    ∃ r, get_ck_news keyword max_results (FeedOutcome.ok es)
      = NewsResult.success [r] := by
  obtain ⟨e, tl, hes⟩ : ∃ e tl, es.filter (matchesKeyword keyword) = e :: tl := by
    cases hfe : es.filter (matchesKeyword keyword) with
    | nil => exact absurd hfe hm
    | cons e tl => exact ⟨e, tl, rfl⟩
  refine ⟨mkReport e, ?_⟩
  simp only [get_ck_news]
  rw [scanNews_eq_take_nonpos hk es 0, hes]
  simp

/-- C9 witness: `max_results = 0` with one matching entry yields exactly
one report. -/
theorem get_ck_news_nonpositive_max_witness :
    (0 : Int) ≤ 0 ∧
    ∃ r, get_ck_news "b".data 0
        (FeedOutcome.ok [⟨"bob".data, "s2".data, "l2".data, "p2".data⟩])
      = NewsResult.success [r] :=
  ⟨by decide, get_ck_news_nonpositive_max "b".data 0 (by decide)
    [⟨"bob".data, "s2".data, "l2".data, "p2".data⟩] (by decide)⟩

/-- C10 (confirmed): both agent descriptors are well-formed static
configurations: each has a non-empty name, model identifier and
instruction, and the tool agent's tool list is exactly
`[get_current_time, get_ck_news]`, in that order. -/
theorem agent_descriptors_well_formed :
    tool_root_agent.name ≠ [] ∧ tool_root_agent.model ≠ [] ∧
    tool_root_agent.instruction ≠ [] ∧
    tool_root_agent.tools = [ToolRef.get_current_time, ToolRef.get_ck_news] ∧
    default_root_agent.name ≠ [] ∧ default_root_agent.model ≠ [] ∧
    default_root_agent.instruction ≠ [] := by
  refine ⟨?_, ?_, ?_, rfl, ?_, ?_, ?_⟩ <;> decide
